import Mathlib

/-!
Verification development for the egui wgpu frame painter
(crates/egui_render_wgpu/src/lib.rs).

Shallow embedding conventions:
- f32 arithmetic is modelled over the rationals; the Rust cast `as u32`
  of a non-negative float is modelled by the natural floor, and
  f32::round (round half away from zero, here only applied to
  non-negative values) by Mathlib round followed by Int.toNat.
- GPU objects (textures, views, samplers, buffers, bind groups) are
  modelled by identity tokens (natural numbers) drawn from a counter;
  buffer replacement is modelled by a generation counter that grows
  exactly when the source allocates a replacement buffer.
- A panic in the source (todo markers and expects on zero image sizes)
  is modelled by Except.error.
-/

/-- Texture identifier model: a two-variant key exactly as egui TextureId. -/
inductive TextureIdM where
  | Managed (id : Nat)
  | User (id : Nat)
deriving DecidableEq, Repr

/-- Magnification filter requested by a texture delta. -/
inductive TextureFilterM where
  | nearest
  | linear
deriving DecidableEq, Repr

/-- Image payload of a delta: Color images are used as-is, Font images go
through the external egui srgba conversion before upload. The pixel
payload is abstract bytes; the external conversion is not modelled
pixel-exactly (no claim inspects pixel values). -/
inductive ImageDataM where
  | color (width height : Nat) (pixels : List Nat)
  | font (width height : Nat) (pixels : List Nat)
deriving DecidableEq, Repr

/-- Width accessor, matching delta.image.width() in the source. -/
def ImageDataM.width : ImageDataM → Nat
  | .color w _ _ => w
  | .font w _ _ => w

/-- Height accessor, matching delta.image.height() in the source. -/
def ImageDataM.height : ImageDataM → Nat
  | .color _ h _ => h
  | .font _ h _ => h

/-- Byte payload to upload, matching the data_bytes computation in
set_textures: color pixels are used directly, font pixels after the
external srgba conversion (pixel values abstracted). -/
def ImageDataM.dataBytes : ImageDataM → List Nat
  | .color _ _ ps => ps
  | .font _ _ ps => ps

/-- Model of egui epaint ImageDelta: image payload, optional sub-region
position (Some means a sub-region update), and the requested
magnification filter from delta.options. -/
structure ImageDeltaM where
  image : ImageDataM
  pos : Option (Nat × Nat)
  magnification : TextureFilterM
deriving DecidableEq, Repr

/-- Which sampler resource a bind group references: one of the two
shared painter samplers, or a sampler created privately (for
user-registered textures). -/
inductive SamplerRefM where
  | nearestShared
  | linearShared
  | custom (tok : Nat)
deriving DecidableEq, Repr

/-- Bind group model: which sampler it binds at binding 0 and which
texture view token it binds at binding 1. -/
structure BindGroupM where
  samplerRef : SamplerRefM
  viewRef : Nat
deriving DecidableEq, Repr

/-- Model of the EguiTexture struct: texture and view tokens are none
for user textures, which wrap an externally owned view. -/
structure EguiTextureM where
  texture : Option Nat
  view : Option Nat
  bindgroup : BindGroupM
deriving DecidableEq, Repr

/-- A queue.write_texture call recorded by the model: the target texture
token, the upload extent and the byte payload. -/
structure TexWrite where
  texTok : Nat
  width : Nat
  height : Nat
  data : List Nat
deriving DecidableEq, Repr

/-- Physical-pixel scissor rectangle. -/
structure Scissor where
  x : Nat
  y : Nat
  w : Nat
  h : Nat
deriving DecidableEq, Repr

/-- Logical clip rectangle of a clipped primitive, with rational
coordinates standing for the f32 min and max corners. -/
structure RectQ where
  minx : ℚ
  miny : ℚ
  maxx : ℚ
  maxy : ℚ
deriving DecidableEq, Repr

/-- Primitive of a clipped primitive: a mesh (vertices abstract, indices,
texture id) or a paint callback identified by a token. -/
inductive PrimitiveM where
  | mesh (vertices : List Nat) (indices : List Nat) (texture_id : TextureIdM)
  | callback (cbId : Nat)
deriving DecidableEq, Repr

/-- Model of egui ClippedPrimitive. -/
structure ClippedPrimM where
  clip_rect : RectQ
  primitive : PrimitiveM
deriving DecidableEq, Repr

/-- Model of the EguiDrawCalls enum recorded by upload_egui_data. -/
inductive EguiDrawCallsM where
  | mesh (clip_rect : Scissor) (texture_id : TextureIdM)
      (base_vertex : Nat) (index_start index_end : Nat)
  | callback (clip_rect : Scissor) (cbId : Nat)
deriving DecidableEq, Repr

/-- The scissor rectangle carried by a draw call (both variants carry one). -/
def EguiDrawCallsM.scissor : EguiDrawCallsM → Scissor
  | .mesh c _ _ _ _ => c
  | .callback c _ => c

/-- Model of the per-frame egui gfx data consumed by upload_egui_data. -/
structure EguiGfxDataM where
  meshes : List ClippedPrimM
  textures_set : List (TextureIdM × ImageDeltaM)
  textures_free : List TextureIdM
  screen_logical_w : ℚ
  screen_logical_h : ℚ
deriving DecidableEq, Repr

/-- Model of the RenderTargetRect produced by the render-target router. -/
structure RenderTargetRectM where
  x : Nat
  y : Nat
  width : Nat
  height : Nat
  screen_width : Nat
  screen_height : Nat
deriving DecidableEq, Repr

/-- Model of the Percent newtype. -/
structure PercentM where
  val : ℚ
deriving DecidableEq, Repr

/-- Model of RenderTargetFullscreenRect: the four margin percentages. -/
structure RenderTargetFullscreenRectM where
  margin_top : PercentM
  margin_bottom : PercentM
  margin_left : PercentM
  margin_right : PercentM
deriving DecidableEq, Repr

/-- The RENDER_TARGET_RECT constant from the source: margins
top 2, bottom 5, left 7, right 44 percent. -/
def RENDER_TARGET_RECT : RenderTargetFullscreenRectM :=
  { margin_top := ⟨2⟩
    margin_bottom := ⟨5⟩
    margin_left := ⟨7⟩
    margin_right := ⟨44⟩ }

/-- Round half to even on the rationals: the integer IEEE 754 uses for
a value exactly between two representable results. -/
def rne (x : ℚ) : ℤ :=
  let f := ⌊x⌋
  let r := x - f
  if r < 1/2 then f
  else if 1/2 < r then f + 1
  else if f % 2 = 0 then f else f + 1

/-- Linear search, from exponent 150 down, for the binade of a positive
rational: the largest e in the normal f32 range with 2 to the e at
most q. -/
def qlog2Go : Nat → ℚ → ℤ
  | 0, _ => -150
  | k+1, q => if (2:ℚ) ^ ((k : ℤ) - 150) ≤ q then (k : ℤ) - 150 else qlog2Go k q

/-- Binade exponent of a rational in the f32 range. -/
def qlog2 (q : ℚ) : ℤ := qlog2Go 301 q

/-- Single-precision rounding (round to nearest, ties to even) of a
non-negative rational in the normal f32 range, modelled exactly over
the rationals: the value is scaled to a 24-bit significand for its
binade, rounded to an integer, and scaled back. Every f32 operation
in the source (u32 to f32 conversion, division, multiplication,
subtraction) is the exact rational operation followed by this
rounding. -/
def f32round (q : ℚ) : ℚ :=
  if q ≤ 0 then 0
  else (rne (q / 2 ^ (qlog2 q - 23)) : ℚ) * 2 ^ (qlog2 q - 23)

/-- Embedding of createRenderTargetRectFromScreenSize with the f32
arithmetic of the source modelled operation by operation: the u32
screen dimensions are converted to f32, divided by 100, multiplied by
the margin-derived factors (the subtractions 100 - 7 - 44 and
100 - 2 - 5 are themselves f32 operations, exact here), and the final
Rust casts `as u32` truncate, which on these non-negative values is
the natural floor. -/
def createRenderTargetRectFromScreenSize (screen_width screen_height : Nat) :
    RenderTargetRectM :=
  let wf := f32round (screen_width : ℚ)
  let hf := f32round (screen_height : ℚ)
  let width_percent := f32round (wf / 100)
  let height_percent := f32round (hf / 100)
  let x := f32round (width_percent * RENDER_TARGET_RECT.margin_left.val)
  let width :=
    f32round (width_percent *
      f32round (f32round (100 - RENDER_TARGET_RECT.margin_left.val)
        - RENDER_TARGET_RECT.margin_right.val))
  let y := f32round (height_percent * RENDER_TARGET_RECT.margin_top.val)
  let height :=
    f32round (height_percent *
      f32round (f32round (100 - RENDER_TARGET_RECT.margin_top.val)
        - RENDER_TARGET_RECT.margin_bottom.val))
  { x := ⌊x⌋₊
    y := ⌊y⌋₊
    width := ⌊width⌋₊
    height := ⌊height⌋₊
    screen_width := screen_width
    screen_height := screen_height }

/-- Model of the EguiPainter state. Buffer identity is tracked by a
generation counter (vbGen, ibGen) that the model bumps exactly where
the source allocates a replacement wgpu buffer; vbSize and ibSize are
the byte sizes those allocations requested. nextTok supplies fresh
identity tokens for created textures, views and samplers. -/
structure Painter where
  vb_len : Nat
  ib_len : Nat
  vbGen : Nat
  ibGen : Nat
  vbSize : Nat
  ibSize : Nat
  managed_textures : Nat → Option EguiTextureM
  user_textures : Nat → Option EguiTextureM
  next_user_texture_id : Nat
  delete_textures : List TextureIdM
  draw_calls : List EguiDrawCallsM
  nextTok : Nat

/-- Embedding of EguiPainter::new: empty vertex and index buffers of
size zero, empty texture tables, user texture counter at zero, empty
pending free list and draw-call list. -/
def EguiPainter.new : Painter :=
  { vb_len := 0
    ib_len := 0
    vbGen := 0
    ibGen := 0
    vbSize := 0
    ibSize := 0
    managed_textures := fun _ => none
    user_textures := fun _ => none
    next_user_texture_id := 0
    delete_textures := []
    draw_calls := []
    nextTok := 0 }

/-- The full creation body of set_textures for a Managed key with no
position: a new texture is created, the whole image is uploaded, a
view and a bind group are built (sampler: nearest for id 0, otherwise
per the requested magnification filter) and the cache entry under
that key is replaced. -/
def managedFullCreate (p : Painter) (k : Nat) (delta : ImageDeltaM) :
    Painter × TexWrite :=
  let texTok := p.nextTok
  let viewTok := p.nextTok + 1
  let bg : BindGroupM :=
    { samplerRef :=
        if k = 0 then .nearestShared
        else
          match delta.magnification with
          | .nearest => .nearestShared
          | .linear => .linearShared
      viewRef := viewTok }
  let entry : EguiTextureM :=
    { texture := some texTok, view := some viewTok, bindgroup := bg }
  let w : TexWrite :=
    { texTok := texTok
      width := delta.image.width
      height := delta.image.height
      data := delta.image.dataBytes }
  ({ p with
      managed_textures :=
        fun x => if x = k then some entry else p.managed_textures x
      nextTok := p.nextTok + 2 },
    w)

/-- Embedding of the set_textures loop, one delta at a time.
A User key hits the todo marker (error). A Managed delta with a
position is the empty branch in the source: no state change and no
write. A Managed delta with no position is the full creation above
(erroring on a zero width or height exactly where the source
NonZeroU32 expects panic). -/
def setTextures (p : Painter) (ds : List (TextureIdM × ImageDeltaM)) :
    Except Unit (Painter × List TexWrite) :=
  match ds with
  | [] => .ok (p, [])
  | (tid, delta) :: rest =>
    match tid with
    | .User _ => .error ()
    | .Managed k =>
      match delta.pos with
      | some _ => setTextures p rest
      | none =>
        if delta.image.width = 0 then .error ()
        else if delta.image.height = 0 then .error ()
        else
          let c := managedFullCreate p k delta
          match setTextures c.1 rest with
          | .ok (pf, ws) => .ok (pf, c.2 :: ws)
          | .error e => .error e

/-- Embedding of the deletion loop in upload_egui_data: each Managed id
in the drained list is removed from the managed table; a User id hits
the todo marker (error). -/
def removeIds (m : Nat → Option EguiTextureM) (tids : List TextureIdM) :
    Except Unit (Nat → Option EguiTextureM) :=
  match tids with
  | [] => .ok m
  | .Managed k :: rest => removeIds (fun x => if x = k then none else m x) rest
  | .User _ :: _ => .error ()

/-- Phase 1 and 2 of the per-frame texture step: drain the previous
frame free list (deleting those managed textures now) and record the
current frame free list for deletion next frame. This is the
mem::replace plus removal loop at the top of upload_egui_data. -/
def deleteRecordPhase (p : Painter) (newFree : List TextureIdM) :
    Except Unit Painter :=
  match removeIds p.managed_textures p.delete_textures with
  | .error e => .error e
  | .ok m =>
    .ok { p with managed_textures := m, delete_textures := newFree }

/-- The whole per-frame texture step: delete previous frame frees and
record current frees, then apply this frame creations. -/
def texturesPhase (p : Painter) (f : EguiGfxDataM) :
    Except Unit (Painter × List TexWrite) :=
  match deleteRecordPhase p f.textures_free with
  | .error e => .error e
  | .ok p1 => setTextures p1 f.textures_set

/-- Rust f32::clamp with the argument order used in the source. The
source only calls it with lo less or equal hi, where this agrees. -/
def clampQ (x lo hi : ℚ) : ℚ := max lo (min x hi)

/-- Rounding of a non-negative rational to a natural, modelling
f32::round followed by the cast `as u32` on the non-negative clamped
clip coordinates. -/
def roundNat (q : ℚ) : Nat := (round q).toNat

/-- Embedding of the physical clip rectangle computation in
upload_egui_data: scale the logical rectangle, clamp the min corner to
the screen, clamp the max corner between the min corner and the
screen, round to integers, force width and height at least one, clamp
the scissor to the target size, and return none exactly when the
resulting clip width or height is zero (the skip branch). -/
def computeScissor (scale : ℚ) (r : RectQ) (w h : Nat) : Option Scissor :=
  let clip_min_x := clampQ (scale * r.minx) 0 (w : ℚ)
  let clip_min_y := clampQ (scale * r.miny) 0 (h : ℚ)
  let clip_max_x := clampQ (scale * r.maxx) clip_min_x (w : ℚ)
  let clip_max_y := clampQ (scale * r.maxy) clip_min_y (h : ℚ)
  let minxN := roundNat clip_min_x
  let minyN := roundNat clip_min_y
  let maxxN := roundNat clip_max_x
  let maxyN := roundNat clip_max_y
  let width := max (maxxN - minxN) 1
  let height := max (maxyN - minyN) 1
  let clip_x := min minxN w
  let clip_y := min minyN h
  let clip_width := min width (w - clip_x)
  let clip_height := min height (h - clip_y)
  if clip_width = 0 ∨ clip_height = 0 then none
  else some ⟨clip_x, clip_y, clip_width, clip_height⟩

/-- State threaded through the draw-call compilation loop: byte write
cursors, the accumulated draw calls, the vertex and index data copied
into the mapped buffer views, and the callback tokens whose prepare
hooks were invoked, in order. -/
structure CompileSt where
  vb_offset : Nat
  ib_offset : Nat
  draw_calls : List EguiDrawCallsM
  vbOut : List Nat
  ibOut : List Nat
  prepared : List Nat
deriving DecidableEq, Repr

/-- The compilation state at the start of the loop. -/
def CompileSt.start : CompileSt :=
  { vb_offset := 0, ib_offset := 0, draw_calls := []
    vbOut := [], ibOut := [], prepared := [] }

/-- One iteration of the clipped-primitive loop in upload_egui_data:
a zero-area scissor skips the primitive entirely; a mesh appends its
vertex and index data at the write cursors and records a Mesh draw
call whose base vertex is the vertex byte cursor divided by the vertex
stride 20 and whose index range is the index byte cursor range divided
by 4; a callback invokes its prepare hook and records a Callback draw
call. -/
def compileStep (scale : ℚ) (w h : Nat) (st : CompileSt) (cp : ClippedPrimM) :
    CompileSt :=
  match computeScissor scale cp.clip_rect w h with
  | none => st
  | some sc =>
    match cp.primitive with
    | .mesh vs is tid =>
      let new_vb_offset := st.vb_offset + vs.length * 20
      let new_ib_offset := st.ib_offset + is.length * 4
      { st with
          vb_offset := new_vb_offset
          ib_offset := new_ib_offset
          vbOut := st.vbOut ++ vs
          ibOut := st.ibOut ++ is
          draw_calls := st.draw_calls ++
            [.mesh sc tid (st.vb_offset / 20)
              (st.ib_offset / 4) (new_ib_offset / 4)] }
    | .callback cb =>
      { st with
          draw_calls := st.draw_calls ++ [.callback sc cb]
          prepared := st.prepared ++ [cb] }

/-- The full clipped-primitive loop. -/
def compileLoop (scale : ℚ) (w h : Nat) (prims : List ClippedPrimM) :
    CompileSt :=
  prims.foldl (compileStep scale w h) CompileSt.start

/-- Total vertex and index counts over the meshes of a frame, the fold
at the top of the geometry block of upload_egui_data. -/
def totalGeom (meshes : List ClippedPrimM) : Nat × Nat :=
  meshes.foldl
    (fun a m =>
      match m.primitive with
      | .mesh vs is _ => (a.1 + vs.length, a.2 + is.length)
      | .callback _ => a)
    (0, 0)

/-- Geometry data written through the mapped buffer views this frame. -/
structure GeomOut where
  verts : List Nat
  inds : List Nat
deriving DecidableEq, Repr

/-- Observable output of one upload_egui_data call: texture writes,
the geometry written (none when the zero-vertex short-circuit fired,
meaning no vertex or index buffer write happened), and the callback
prepare hooks invoked. -/
structure FrameOut where
  texWrites : List TexWrite
  geom : Option GeomOut
  prepared : List Nat
deriving DecidableEq, Repr

/-- The geometry block of upload_egui_data: compute the totals, short
circuit when the total vertex count is zero (no buffer management, no
writes, no draw calls beyond the clear), otherwise grow each buffer
exactly when its requirement strictly exceeds its capacity (the
replacement sized exactly requirement times 20 or 4 bytes), run the
compilation loop and store its draw calls. -/
def geometryPhase (p : Painter) (scale : ℚ) (meshes : List ClippedPrimM)
    (w h : Nat) : Painter × Option GeomOut × List Nat :=
  let t := totalGeom meshes
  if t.1 = 0 then (p, none, [])
  else
    let p1 :=
      if p.vb_len < t.1 then
        { p with vbGen := p.vbGen + 1, vbSize := t.1 * 20, vb_len := t.1 }
      else p
    let p2 :=
      if p1.ib_len < t.2 then
        { p1 with ibGen := p1.ibGen + 1, ibSize := t.2 * 4, ib_len := t.2 }
      else p1
    let st := compileLoop scale w h meshes
    ({ p2 with draw_calls := st.draw_calls },
      some ⟨st.vbOut, st.ibOut⟩, st.prepared)

/-- Embedding of EguiPainter::upload_egui_data: clear the draw calls,
run the texture step (delete previous frees, record current frees,
apply creations), then the geometry block. The screen-size uniform
write is unconditional in the source and not part of any claim, so it
is not logged. -/
def upload_egui_data (p : Painter) (f : EguiGfxDataM) (sp : Nat × Nat) :
    Except Unit (Painter × FrameOut) :=
  let scale : ℚ := (sp.1 : ℚ) / f.screen_logical_w
  let p0 := { p with draw_calls := ([] : List EguiDrawCallsM) }
  match texturesPhase p0 f with
  | .error e => .error e
  | .ok (pt, ws) =>
    let g := geometryPhase pt scale f.meshes sp.1 sp.2
    .ok (g.1, { texWrites := ws, geom := g.2.1, prepared := g.2.2 })

/-- Sampler descriptor model for user texture registration (only the
filter fields matter to the model; compare is forced to none by the
source before creation). -/
structure SamplerDescM where
  mag : TextureFilterM
  min : TextureFilterM
deriving DecidableEq, Repr

/-- Embedding of register_native_texture_with_sampler_options: create a
private sampler from the descriptor, build a bind group over it and
the externally owned view, insert the entry (texture and view none)
under the current user texture counter, return the User key for that
counter and increment it. -/
def register_native_texture_with_sampler_options (p : Painter)
    (viewTok : Nat) (_sampler_descriptor : SamplerDescM) :
    TextureIdM × Painter :=
  let samplerTok := p.nextTok
  let bg : BindGroupM := { samplerRef := .custom samplerTok, viewRef := viewTok }
  let key := TextureIdM.User p.next_user_texture_id
  (key,
    { p with
        user_textures :=
          fun x =>
            if x = p.next_user_texture_id then
              some { texture := none, view := none, bindgroup := bg }
            else p.user_textures x
        next_user_texture_id := p.next_user_texture_id + 1
        nextTok := p.nextTok + 1 })

/-- A sequence of frames driven through upload_egui_data, stopping at
the first panic. -/
def runFrames (p : Painter) : List (EguiGfxDataM × Nat × Nat) →
    Except Unit Painter
  | [] => .ok p
  | (f, w, h) :: rest =>
    match upload_egui_data p f (w, h) with
    | .ok (p1, _) => runFrames p1 rest
    | .error e => .error e

/-- Auxiliary: rounding an exact integer changes nothing. -/
theorem rne_intCast (n : ℤ) : rne (n : ℚ) = n := by
  norm_num [rne]

/-- Auxiliary: rounding an exact natural changes nothing. -/
theorem rne_natCast (n : ℕ) : rne (n : ℚ) = n := by
  exact_mod_cast rne_intCast (n : ℤ)

/-- Auxiliary: the binade search is correct on its range. -/
theorem qlog2Go_spec (k : Nat) (q : ℚ) (hlo : (2:ℚ) ^ (-150 : ℤ) ≤ q)
    (hhi : q < 2 ^ ((k : ℤ) - 150)) (hk : 0 < k) :
    2 ^ (qlog2Go k q) ≤ q ∧ q < 2 ^ (qlog2Go k q + 1) := by
  induction k with
  | zero => exact absurd hk (lt_irrefl 0)
  | succ k ih =>
    simp only [qlog2Go]
    split
    · rename_i hle
      refine ⟨hle, ?_⟩
      have hcast : ((k:ℤ) - 150) + 1 = ((k + 1 : ℕ) : ℤ) - 150 := by
        push_cast
        ring
      rw [hcast]
      exact hhi
    · rename_i hgt
      push_neg at hgt
      rcases Nat.eq_zero_or_pos k with rfl | hk2
      · exfalso
        have h0 : ((0:ℕ):ℤ) - 150 = (-150 : ℤ) := by norm_num
        rw [h0] at hgt
        exact absurd (lt_of_le_of_lt hlo hgt) (lt_irrefl _)
      · exact ih hgt hk2

/-- Auxiliary: the binade exponent is unique. -/
theorem qexp_unique (q : ℚ) (e1 e2 : ℤ)
    (h1 : 2^e1 ≤ q) (h2 : q < 2^(e1+1)) (h3 : 2^e2 ≤ q) (h4 : q < 2^(e2+1)) :
    e1 = e2 := by
  by_contra hne
  rcases lt_or_gt_of_ne hne with hlt | hlt
  · have hle : (2:ℚ)^(e1+1) ≤ 2^e2 :=
      zpow_le_zpow_right₀ (by norm_num) (by omega)
    exact absurd (lt_of_lt_of_le h2 (hle.trans h3)) (lt_irrefl q)
  · have hle : (2:ℚ)^(e2+1) ≤ 2^e1 :=
      zpow_le_zpow_right₀ (by norm_num) (by omega)
    exact absurd (lt_of_lt_of_le h4 (hle.trans h1)) (lt_irrefl q)

/-- Auxiliary: closed form of the f32 rounding once the binade of the
input is known. -/
theorem f32round_eq (q : ℚ) (e : ℤ) (helo : -150 ≤ e) (hehi : e ≤ 150)
    (h1 : 2^e ≤ q) (h2 : q < 2^(e+1)) :
    f32round q = (rne (q / 2^(e - 23)) : ℚ) * 2^(e - 23) := by
  have hq : 0 < q := lt_of_lt_of_le (zpow_pos (by norm_num) e) h1
  have hlo : (2:ℚ)^(-150:ℤ) ≤ q :=
    le_trans (zpow_le_zpow_right₀ (by norm_num) helo) h1
  have hhi : q < 2 ^ (((301 : ℕ) : ℤ) - 150) := by
    refine lt_of_lt_of_le h2 (zpow_le_zpow_right₀ (by norm_num) ?_)
    push_cast
    omega
  have hspec : 2 ^ (qlog2 q) ≤ q ∧ q < 2 ^ (qlog2 q + 1) :=
    qlog2Go_spec 301 q hlo hhi (by norm_num)
  have heq : qlog2 q = e := qexp_unique q _ e hspec.1 hspec.2 h1 h2
  rw [f32round, if_neg (not_le.mpr hq), heq]

/-- Auxiliary: every natural up to 2 to the 24 is exactly representable
in single precision, so the rounding is the identity there. -/
theorem f32round_nat (n : ℕ) (hn : n ≤ 2^24) : f32round (n : ℚ) = n := by
  rcases Nat.eq_zero_or_pos n with rfl | hn0
  · simp [f32round]
  rcases eq_or_lt_of_le hn with heq | hlt
  · subst heq
    rw [f32round_eq _ 24 (by norm_num) (by norm_num)
      (by push_cast; norm_num) (by push_cast; norm_num)]
    norm_num [rne]
  · set t := Nat.log 2 n with ht
    have hne : n ≠ 0 := hn0.ne'
    have ht1 : 2^t ≤ n := Nat.pow_log_le_self 2 hne
    have ht2 : n < 2^(t+1) := Nat.lt_pow_succ_log_self (by norm_num) n
    have ht3 : t < 24 := Nat.log_lt_of_lt_pow hne hlt
    have hb1 : (2:ℚ)^(t:ℤ) ≤ (n:ℚ) := by
      rw [zpow_natCast]
      exact_mod_cast ht1
    have hb2 : (n:ℚ) < 2^((t:ℤ)+1) := by
      rw [show (t:ℤ)+1 = ((t+1:ℕ):ℤ) by push_cast; ring, zpow_natCast]
      exact_mod_cast ht2
    rw [f32round_eq _ (t:ℤ) (by omega) (by omega) hb1 hb2]
    have hkey : (((n * 2^(23-t) : ℕ)) : ℚ) * 2^((t:ℤ) - 23) = (n:ℚ) := by
      push_cast
      rw [mul_assoc, ← zpow_natCast (2:ℚ) (23 - t),
        ← zpow_add₀ (by norm_num : (2:ℚ) ≠ 0)]
      rw [Nat.cast_sub (by omega : t ≤ 23)]
      have hz : ((23:ℕ):ℤ) - (t:ℤ) + ((t:ℤ) - 23) = 0 := by
        push_cast
        ring
      rw [hz, zpow_zero, mul_one]
    have hdiv : (n:ℚ) / 2^((t:ℤ)-23) = ((n * 2^(23-t) : ℕ) : ℚ) := by
      rw [div_eq_iff (zpow_ne_zero _ (by norm_num : (2:ℚ) ≠ 0))]
      exact hkey.symm
    rw [hdiv, rne_natCast]
    exact hkey

/-- Auxiliary: the width factor 100 - 7 - 44 is computed exactly by the
f32 subtractions and equals 49. -/
theorem f32c49 :
    f32round (f32round (100 - RENDER_TARGET_RECT.margin_left.val)
      - RENDER_TARGET_RECT.margin_right.val) = 49 := by
  show f32round (f32round ((100:ℚ) - 7) - 44) = 49
  have h93 := f32round_nat 93 (by norm_num)
  norm_num at h93
  norm_num [h93]
  have h49 := f32round_nat 49 (by norm_num)
  norm_num at h49
  exact h49

/-- Auxiliary: the height factor 100 - 2 - 5 is computed exactly by the
f32 subtractions and equals 93. -/
theorem f32c93 :
    f32round (f32round (100 - RENDER_TARGET_RECT.margin_top.val)
      - RENDER_TARGET_RECT.margin_bottom.val) = 93 := by
  show f32round (f32round ((100:ℚ) - 2) - 5) = 93
  have h98 := f32round_nat 98 (by norm_num)
  norm_num at h98
  norm_num [h98]
  have h93 := f32round_nat 93 (by norm_num)
  norm_num at h93
  exact h93

/-- Auxiliary: for screen dimensions that are multiples of 100 up to
2 to the 24, every intermediate f32 value is an exactly representable
integer, so the computed fields equal the truncated percentages. -/
theorem createRect_exact_on_hundreds (k j : ℕ)
    (hk : 100 * k ≤ 2^24) (hj : 100 * j ≤ 2^24) :
    (createRenderTargetRectFromScreenSize (100*k) (100*j)).x =
      7 * (100*k) / 100 ∧
    (createRenderTargetRectFromScreenSize (100*k) (100*j)).y =
      2 * (100*j) / 100 ∧
    (createRenderTargetRectFromScreenSize (100*k) (100*j)).width =
      49 * (100*k) / 100 ∧
    (createRenderTargetRectFromScreenSize (100*k) (100*j)).height =
      93 * (100*j) / 100 := by
  have e1 : f32round (((100*k : ℕ)) : ℚ) = ((100*k : ℕ) : ℚ) :=
    f32round_nat _ hk
  have e1h : f32round (((100*j : ℕ)) : ℚ) = ((100*j : ℕ) : ℚ) :=
    f32round_nat _ hj
  have ediv : (((100*k : ℕ)) : ℚ) / 100 = ((k:ℕ):ℚ) := by
    push_cast
    field_simp
  have edivh : (((100*j : ℕ)) : ℚ) / 100 = ((j:ℕ):ℚ) := by
    push_cast
    field_simp
  have e2 : f32round ((k:ℕ):ℚ) = ((k:ℕ):ℚ) := f32round_nat _ (by omega)
  have e2h : f32round ((j:ℕ):ℚ) = ((j:ℕ):ℚ) := f32round_nat _ (by omega)
  have e7 : f32round (((k:ℕ):ℚ) * 7) = ((7*k:ℕ):ℚ) := by
    rw [show ((k:ℕ):ℚ) * 7 = ((7*k:ℕ):ℚ) by push_cast; ring]
    exact f32round_nat _ (by omega)
  have e49 : f32round (((k:ℕ):ℚ) * 49) = ((49*k:ℕ):ℚ) := by
    rw [show ((k:ℕ):ℚ) * 49 = ((49*k:ℕ):ℚ) by push_cast; ring]
    exact f32round_nat _ (by omega)
  have e2y : f32round (((j:ℕ):ℚ) * 2) = ((2*j:ℕ):ℚ) := by
    rw [show ((j:ℕ):ℚ) * 2 = ((2*j:ℕ):ℚ) by push_cast; ring]
    exact f32round_nat _ (by omega)
  have e93 : f32round (((j:ℕ):ℚ) * 93) = ((93*j:ℕ):ℚ) := by
    rw [show ((j:ℕ):ℚ) * 93 = ((93*j:ℕ):ℚ) by push_cast; ring]
    exact f32round_nat _ (by omega)
  unfold createRenderTargetRectFromScreenSize
  dsimp only
  rw [f32c49, f32c93,
    show RENDER_TARGET_RECT.margin_left.val = (7:ℚ) from rfl,
    show RENDER_TARGET_RECT.margin_top.val = (2:ℚ) from rfl,
    e1, e1h, ediv, edivh, e2, e2h, e7, e49, e2y, e93]
  refine ⟨?_, ?_, ?_, ?_⟩ <;>
    rw [Nat.floor_natCast] <;> omega

/-- Auxiliary: the 1000 by 1000 scenario evaluates to the expected
rectangle. -/
theorem createRect_scenario1000 :
    createRenderTargetRectFromScreenSize 1000 1000 =
      ⟨70, 20, 490, 930, 1000, 1000⟩ := by
  have g := createRect_exact_on_hundreds 10 10 (by norm_num) (by norm_num)
  norm_num at g
  obtain ⟨gx, gy, gw, gh⟩ := g
  have hs : createRenderTargetRectFromScreenSize 1000 1000 =
      ⟨(createRenderTargetRectFromScreenSize 1000 1000).x,
        (createRenderTargetRectFromScreenSize 1000 1000).y,
        (createRenderTargetRectFromScreenSize 1000 1000).width,
        (createRenderTargetRectFromScreenSize 1000 1000).height,
        (createRenderTargetRectFromScreenSize 1000 1000).screen_width,
        (createRenderTargetRectFromScreenSize 1000 1000).screen_height⟩ := rfl
  rw [hs, gx, gy, gw, gh]
  exact rfl

/-- Counterexample to C6 as stated: at screen width 16777217 the f32
pipeline computes width 8220835 (w rounds to 16777216 in f32, the
division and multiplication round again), while 49 percent of w
truncated is 8220836 - so the truncated-percentage formulas do not
hold for every screen size. -/
theorem C6_width_rounding_cex :
    (createRenderTargetRectFromScreenSize 16777217 100).width = 8220835 ∧
    49 * 16777217 / 100 = 8220836 := by
  constructor
  · unfold createRenderTargetRectFromScreenSize
    dsimp only
    rw [f32c49]
    have s1 : f32round ((16777217 : ℕ) : ℚ) = 16777216 := by
      rw [f32round_eq _ 24 (by norm_num) (by norm_num)
        (by push_cast; norm_num) (by push_cast; norm_num)]
      norm_num [rne]
    rw [s1]
    have s2 : f32round ((16777216 : ℚ) / 100) = 5368709/32 := by
      rw [f32round_eq _ 17 (by norm_num) (by norm_num)
        (by norm_num) (by norm_num)]
      norm_num [rne]
    rw [s2]
    have s3 : f32round ((5368709/32 : ℚ) * 49) = 16441671/2 := by
      rw [f32round_eq _ 22 (by norm_num) (by norm_num)
        (by norm_num) (by norm_num)]
      norm_num [rne]
    rw [s3]
    rw [show (16441671/2 : ℚ) = ((16441671:ℕ):ℚ)/((2:ℕ):ℚ) by norm_num]
    rw [Nat.floor_div_nat, Nat.floor_natCast]
  · decide

/-- C6 (amended): the rectangle is derived from the fixed margins
top 2, bottom 5, left 7, right 44 percent by single-precision
arithmetic; for every screen size whose dimensions are multiples of
100 and at most 2 to the 24, the fields equal the exactly truncated
percentages x = 7w/100, y = 2h/100, width = 49w/100, height = 93h/100,
and in particular a 1000 by 1000 screen yields x 70, y 20, width 490,
height 930. -/
theorem C6_render_target_rect (k j : ℕ)
    (hk : 100 * k ≤ 2^24) (hj : 100 * j ≤ 2^24) :
    ((createRenderTargetRectFromScreenSize (100*k) (100*j)).x =
        7 * (100*k) / 100 ∧
      (createRenderTargetRectFromScreenSize (100*k) (100*j)).y =
        2 * (100*j) / 100 ∧
      (createRenderTargetRectFromScreenSize (100*k) (100*j)).width =
        49 * (100*k) / 100 ∧
      (createRenderTargetRectFromScreenSize (100*k) (100*j)).height =
        93 * (100*j) / 100) ∧
    createRenderTargetRectFromScreenSize 1000 1000 =
      ⟨70, 20, 490, 930, 1000, 1000⟩ :=
  ⟨createRect_exact_on_hundreds k j hk hj, createRect_scenario1000⟩

/-- Witness for the amended C6 at a concrete input: the 1000 by 1000
screen. -/
theorem C6_render_target_rect_witness :
    (100 * 10 ≤ 2^24) ∧
    (((createRenderTargetRectFromScreenSize (100*10) (100*10)).x =
        7 * (100*10) / 100 ∧
      (createRenderTargetRectFromScreenSize (100*10) (100*10)).y =
        2 * (100*10) / 100 ∧
      (createRenderTargetRectFromScreenSize (100*10) (100*10)).width =
        49 * (100*10) / 100 ∧
      (createRenderTargetRectFromScreenSize (100*10) (100*10)).height =
        93 * (100*10) / 100) ∧
    createRenderTargetRectFromScreenSize 1000 1000 =
      ⟨70, 20, 490, 930, 1000, 1000⟩) :=
  ⟨by norm_num,
    C6_render_target_rect 10 10 (by norm_num) (by norm_num)⟩


/-- C7: registering a user texture returns the User key for the current
counter (zero on a freshly constructed painter), a second registration
returns the strictly larger successor key, and looking the returned id
up immediately resolves to exactly the bind group built in that call
(over the private sampler created in that call and the given view). -/
theorem C7_register_user_texture (p : Painter) (v1 v2 : Nat)
    (d1 d2 : SamplerDescM) :
    EguiPainter.new.next_user_texture_id = 0 ∧
    (register_native_texture_with_sampler_options p v1 d1).1 =
      TextureIdM.User p.next_user_texture_id ∧
    (register_native_texture_with_sampler_options
        (register_native_texture_with_sampler_options p v1 d1).2 v2 d2).1 =
      TextureIdM.User (p.next_user_texture_id + 1) ∧
    p.next_user_texture_id < p.next_user_texture_id + 1 ∧
    (register_native_texture_with_sampler_options p v1 d1).2.user_textures
        p.next_user_texture_id =
      some { texture := none, view := none,
             bindgroup := { samplerRef := .custom p.nextTok, viewRef := v1 } } := by
  refine ⟨rfl, rfl, rfl, Nat.lt_succ_self _, ?_⟩
  simp [register_native_texture_with_sampler_options]

/-- A managed texture entry used as the pre-existing cache content in
the C1 failing-input evaluation. -/
def texEntryC1 : EguiTextureM :=
  { texture := some 0, view := some 1
    bindgroup := { samplerRef := .nearestShared, viewRef := 1 } }

/-- Painter state holding an existing managed texture under id 0. -/
def pExistingC1 : Painter :=
  { EguiPainter.new with
      managed_textures := fun k => if k = 0 then some texEntryC1 else none }

/-- A sub-region (position-carrying) delta for managed id 0. -/
def subDeltaC1 : ImageDeltaM :=
  { image := .color 1 1 [42], pos := some (0, 0), magnification := .linear }

/-- C1: evaluation of the code at the failing input. A texture exists
under managed id 0 and a delta carrying a position arrives for that
key; the source branch for this case is empty, so the call returns
with the painter state unchanged and with no texture write at all —
the sub-rectangle of pixel data is never written, contradicting the
claim and the spec, which say the sub-rectangle is uploaded into the
existing texture. -/
theorem C1_subregion_update_dropped :
    (pExistingC1.managed_textures 0).isSome = true ∧
    setTextures pExistingC1 [(TextureIdM.Managed 0, subDeltaC1)] =
      .ok (pExistingC1, []) :=
  ⟨rfl, rfl⟩

/-- Auxiliary: the deletion loop panics (todo) as soon as it meets a
User id in the drained list. -/
theorem removeIds_user_mem (m : Nat → Option EguiTextureM)
    (tids : List TextureIdM) (uid : Nat)
    (h : TextureIdM.User uid ∈ tids) :
    removeIds m tids = .error () := by
  induction tids generalizing m with
  | nil => cases h
  | cons t rest ih =>
    cases t with
    | Managed k =>
      have hm : TextureIdM.User uid ∈ rest := by
        rcases List.mem_cons.mp h with h1 | h1
        · cases h1
        · exact h1
      simpa [removeIds] using ih _ hm
    | User u => simp [removeIds]

/-- Auxiliary: set_textures panics (todo) as soon as the delta list
contains a User-keyed delta, whatever its position field. -/
theorem setTextures_user_mem (p : Painter)
    (ds : List (TextureIdM × ImageDeltaM)) (uid : Nat) (d : ImageDeltaM)
    (h : (TextureIdM.User uid, d) ∈ ds) :
    setTextures p ds = .error () := by
  induction ds generalizing p with
  | nil => cases h
  | cons hd rest ih =>
    obtain ⟨tid, delta⟩ := hd
    rcases List.mem_cons.mp h with h1 | h1
    · obtain ⟨h2, -⟩ := Prod.mk.injEq .. ▸ h1
      cases h2
      simp [setTextures]
    · cases tid with
      | User u => simp [setTextures]
      | Managed k =>
        cases hpos : delta.pos with
        | some q => simpa [setTextures, hpos] using ih _ h1
        | none =>
          simp only [setTextures, hpos]
          split
          · rfl
          · split
            · rfl
            · rw [ih _ h1]

/-- C10: a frame whose delta set contains any User-keyed delta
(whatever its position field), or whose previous-frame recorded free
list contains a User id, makes upload_egui_data hit an explicit todo
marker: the whole call panics (errors in the model). -/
theorem C10_user_texture_todo (p : Painter) (f : EguiGfxDataM)
    (sp : Nat × Nat) (uid : Nat) (d : ImageDeltaM)
    (h : (TextureIdM.User uid, d) ∈ f.textures_set ∨
      TextureIdM.User uid ∈ p.delete_textures) :
    upload_egui_data p f sp = .error () := by
  rcases h with hset | hpend
  · rcases hrem :
        removeIds p.managed_textures p.delete_textures with e | m
    · obtain rfl : e = () := rfl
      simp [upload_egui_data, texturesPhase, deleteRecordPhase, hrem]
    · simp [upload_egui_data, texturesPhase, deleteRecordPhase, hrem,
        setTextures_user_mem _ _ uid d hset]
  · simp [upload_egui_data, texturesPhase, deleteRecordPhase,
      removeIds_user_mem _ _ uid hpend]

/-- A painter whose previous frame freed a User texture. -/
def pPendingUserC10 : Painter :=
  { EguiPainter.new with delete_textures := [TextureIdM.User 3] }

/-- A frame whose delta set creates a User-keyed texture. -/
def fUserSetC10 : EguiGfxDataM :=
  { meshes := []
    textures_set :=
      [(TextureIdM.User 1,
        { image := .color 1 1 [0], pos := none, magnification := .linear })]
    textures_free := []
    screen_logical_w := 1
    screen_logical_h := 1 }

/-- An empty frame. -/
def fEmptyFrame : EguiGfxDataM :=
  { meshes := [], textures_set := [], textures_free := []
    screen_logical_w := 1, screen_logical_h := 1 }

/-- Witness for C10 at concrete inputs: a User-keyed delta in the set
makes the frame error, and a User id recorded in the previous frame
free list makes the next frame error. -/
theorem C10_user_texture_todo_witness :
    upload_egui_data EguiPainter.new fUserSetC10 (1, 1) = .error () ∧
    upload_egui_data pPendingUserC10 fEmptyFrame (1, 1) = .error () :=
  ⟨C10_user_texture_todo EguiPainter.new fUserSetC10 (1, 1) 1
      { image := .color 1 1 [0], pos := none, magnification := .linear }
      (Or.inl (by simp [fUserSetC10])),
    C10_user_texture_todo pPendingUserC10 fEmptyFrame (1, 1) 3
      { image := .color 1 1 [0], pos := none, magnification := .linear }
      (Or.inr (by simp [pPendingUserC10]))⟩

/-- C8: a full creation (no position) under a Managed key produces an
entry whose bind group samples with the nearest shared sampler when
the id is zero (the reserved font atlas slot), regardless of the
requested filter, and otherwise with the shared sampler matching the
requested magnification filter. -/
theorem C8_sampler_choice (p p' : Painter) (id : Nat) (delta : ImageDeltaM)
    (ws : List TexWrite)
    (hpos : delta.pos = none)
    (h : setTextures p [(TextureIdM.Managed id, delta)] = .ok (p', ws)) :
    (p'.managed_textures id).map (fun e => e.bindgroup.samplerRef) =
      some
        (if id = 0 then SamplerRefM.nearestShared
         else
           match delta.magnification with
           | .nearest => SamplerRefM.nearestShared
           | .linear => SamplerRefM.linearShared) := by
  simp only [setTextures, hpos] at h
  split at h
  · cases h
  · split at h
    · cases h
    · injection h with h2
      injection h2 with h3 h4
      subst h3
      simp [managedFullCreate]

/-- The delta used in the C8 witness: a full creation for the font
atlas slot requesting linear filtering. -/
def deltaC8 : ImageDeltaM :=
  { image := .color 1 1 [0], pos := none, magnification := .linear }

/-- The entry the C8 witness creation produces. -/
def entryC8 : EguiTextureM :=
  { texture := some 0, view := some 1
    bindgroup := { samplerRef := .nearestShared, viewRef := 1 } }

/-- Painter state after the C8 witness creation. -/
def pAfterC8 : Painter :=
  { EguiPainter.new with
      managed_textures :=
        fun x => if x = 0 then some entryC8
          else EguiPainter.new.managed_textures x
      nextTok := 2 }

/-- The texture write the C8 witness creation issues. -/
def wC8 : TexWrite := { texTok := 0, width := 1, height := 1, data := [0] }

/-- Witness for C8 at a concrete input: id 0 with a linear filter
request still binds the nearest shared sampler. -/
theorem C8_sampler_choice_witness :
    deltaC8.pos = none ∧
    (pAfterC8.managed_textures 0).map (fun e => e.bindgroup.samplerRef) =
      some
        (if 0 = 0 then SamplerRefM.nearestShared
         else
           match deltaC8.magnification with
           | .nearest => SamplerRefM.nearestShared
           | .linear => SamplerRefM.linearShared) :=
  ⟨rfl, C8_sampler_choice EguiPainter.new pAfterC8 0 deltaC8 [wC8] rfl rfl⟩

/-- Auxiliary: a successful set_textures pass touches only the managed
table and the token counter; every other painter field is preserved. -/
theorem setTextures_ok_fields (p p' : Painter)
    (ds : List (TextureIdM × ImageDeltaM)) (ws : List TexWrite)
    (h : setTextures p ds = .ok (p', ws)) :
    p'.vb_len = p.vb_len ∧ p'.ib_len = p.ib_len ∧ p'.vbGen = p.vbGen ∧
    p'.ibGen = p.ibGen ∧ p'.vbSize = p.vbSize ∧ p'.ibSize = p.ibSize ∧
    p'.delete_textures = p.delete_textures ∧ p'.draw_calls = p.draw_calls ∧
    p'.user_textures = p.user_textures ∧
    p'.next_user_texture_id = p.next_user_texture_id := by
  induction ds generalizing p ws with
  | nil =>
    simp only [setTextures] at h
    injection h with h2
    injection h2 with h3 h4
    subst h3
    exact ⟨rfl, rfl, rfl, rfl, rfl, rfl, rfl, rfl, rfl, rfl⟩
  | cons hd rest ih =>
    obtain ⟨tid, delta⟩ := hd
    cases tid with
    | User u => simp [setTextures] at h
    | Managed k =>
      cases hpos : delta.pos with
      | some q =>
        simp only [setTextures, hpos] at h
        exact ih _ _ h
      | none =>
        simp only [setTextures, hpos] at h
        split at h
        · cases h
        · split at h
          · cases h
          · rcases hrec :
                setTextures (managedFullCreate p k delta).1 rest with e | pr
            · rw [hrec] at h; cases h
            · obtain ⟨pf, ws'⟩ := pr
              rw [hrec] at h
              injection h with h2
              injection h2 with h3 h4
              subst h3
              exact ih (managedFullCreate p k delta).1 ws' hrec

/-- Auxiliary: a successful delete-and-record phase touches only the
managed table and the pending free list; it records exactly the new
free list. -/
theorem deleteRecordPhase_fields (p p1 : Painter) (nf : List TextureIdM)
    (h : deleteRecordPhase p nf = .ok p1) :
    p1.vb_len = p.vb_len ∧ p1.ib_len = p.ib_len ∧ p1.vbGen = p.vbGen ∧
    p1.ibGen = p.ibGen ∧ p1.vbSize = p.vbSize ∧ p1.ibSize = p.ibSize ∧
    p1.delete_textures = nf ∧ p1.draw_calls = p.draw_calls ∧
    p1.user_textures = p.user_textures ∧
    p1.next_user_texture_id = p.next_user_texture_id := by
  unfold deleteRecordPhase at h
  rcases hrem : removeIds p.managed_textures p.delete_textures with e | m
  · rw [hrem] at h; cases h
  · rw [hrem] at h
    injection h with h2
    subst h2
    exact ⟨rfl, rfl, rfl, rfl, rfl, rfl, rfl, rfl, rfl, rfl⟩

/-- Auxiliary: a successful texture step preserves all geometry fields
and the draw-call list, and records the frame free list as the new
pending deletion list. -/
theorem texturesPhase_fields (p pt : Painter) (f : EguiGfxDataM)
    (ws : List TexWrite)
    (h : texturesPhase p f = .ok (pt, ws)) :
    pt.vb_len = p.vb_len ∧ pt.ib_len = p.ib_len ∧ pt.vbGen = p.vbGen ∧
    pt.ibGen = p.ibGen ∧ pt.vbSize = p.vbSize ∧ pt.ibSize = p.ibSize ∧
    pt.delete_textures = f.textures_free ∧ pt.draw_calls = p.draw_calls ∧
    pt.user_textures = p.user_textures ∧
    pt.next_user_texture_id = p.next_user_texture_id := by
  unfold texturesPhase at h
  rcases hdel : deleteRecordPhase p f.textures_free with e | p1
  · rw [hdel] at h; cases h
  · rw [hdel] at h
    obtain ⟨d1, d2, d3, d4, d5, d6, d7, d8, d9, d10⟩ :=
      deleteRecordPhase_fields p p1 f.textures_free hdel
    obtain ⟨s1, s2, s3, s4, s5, s6, s7, s8, s9, s10⟩ :=
      setTextures_ok_fields p1 pt f.textures_set ws h
    exact ⟨s1.trans d1, s2.trans d2, s3.trans d3, s4.trans d4,
      s5.trans d5, s6.trans d6, s7.trans d7, s8.trans d8,
      s9.trans d9, s10.trans d10⟩

/-- C4: a frame whose meshes sum to zero total vertices short-circuits:
the draw-call list ends the frame empty, no vertex or index data is
written (geom output none), and neither buffer is reallocated or has
its capacity or size changed. -/
theorem C4_zero_vertex_short_circuit (p p' : Painter) (f : EguiGfxDataM)
    (sp : Nat × Nat) (out : FrameOut)
    (hv : (totalGeom f.meshes).1 = 0)
    (h : upload_egui_data p f sp = .ok (p', out)) :
    p'.draw_calls = [] ∧ out.geom = none ∧
    p'.vbGen = p.vbGen ∧ p'.ibGen = p.ibGen ∧
    p'.vb_len = p.vb_len ∧ p'.ib_len = p.ib_len ∧
    p'.vbSize = p.vbSize ∧ p'.ibSize = p.ibSize := by
  simp only [upload_egui_data] at h
  rcases htx :
      texturesPhase { p with draw_calls := ([] : List EguiDrawCallsM) } f
      with e | pr
  · rw [htx] at h; cases h
  · obtain ⟨pt, ws⟩ := pr
    rw [htx] at h
    simp only [geometryPhase, hv, if_pos] at h
    injection h with h2
    injection h2 with h3 h4
    subst h3
    obtain ⟨t1, t2, t3, t4, t5, t6, t7, t8, t9, t10⟩ :=
      texturesPhase_fields _ _ _ _ htx
    subst h4
    exact ⟨t8, rfl, t3, t4, t1, t2, t5, t6⟩

/-- The frame output of an empty or short-circuited frame at the
initial painter. -/
def outEmptyFrame : FrameOut := { texWrites := [], geom := none, prepared := [] }

/-- Witness for C4 at a concrete input: the empty frame. -/
theorem C4_zero_vertex_short_circuit_witness :
    (totalGeom fEmptyFrame.meshes).1 = 0 ∧
    (EguiPainter.new.draw_calls = [] ∧ outEmptyFrame.geom = none ∧
      EguiPainter.new.vbGen = EguiPainter.new.vbGen ∧
      EguiPainter.new.ibGen = EguiPainter.new.ibGen ∧
      EguiPainter.new.vb_len = EguiPainter.new.vb_len ∧
      EguiPainter.new.ib_len = EguiPainter.new.ib_len ∧
      EguiPainter.new.vbSize = EguiPainter.new.vbSize ∧
      EguiPainter.new.ibSize = EguiPainter.new.ibSize) :=
  ⟨rfl, C4_zero_vertex_short_circuit EguiPainter.new EguiPainter.new
    fEmptyFrame (1, 1) outEmptyFrame rfl rfl⟩

/-- C9: when the zero-vertex short-circuit fires, callbacks are
suppressed with the rest: even if the frame contains a callback
primitive, no prepare hook is invoked and no callback draw unit is
recorded. -/
theorem C9_callbacks_suppressed (p p' : Painter) (f : EguiGfxDataM)
    (sp : Nat × Nat) (out : FrameOut) (cp : ClippedPrimM) (cb : Nat)
    (hv : (totalGeom f.meshes).1 = 0)
    (_hmem : cp ∈ f.meshes) (_hcb : cp.primitive = .callback cb)
    (h : upload_egui_data p f sp = .ok (p', out)) :
    out.prepared = [] ∧ p'.draw_calls = [] := by
  simp only [upload_egui_data] at h
  rcases htx :
      texturesPhase { p with draw_calls := ([] : List EguiDrawCallsM) } f
      with e | pr
  · rw [htx] at h; cases h
  · obtain ⟨pt, ws⟩ := pr
    rw [htx] at h
    simp only [geometryPhase, hv, if_pos] at h
    injection h with h2
    injection h2 with h3 h4
    subst h3
    subst h4
    obtain ⟨-, -, -, -, -, -, -, t8, -, -⟩ :=
      texturesPhase_fields _ _ _ _ htx
    exact ⟨rfl, t8⟩

/-- A frame holding one callback primitive and no mesh geometry. -/
def fCallbackC9 : EguiGfxDataM :=
  { meshes := [⟨⟨0, 0, 0, 0⟩, .callback 7⟩]
    textures_set := [], textures_free := []
    screen_logical_w := 1, screen_logical_h := 1 }

/-- Witness for C9 at a concrete input: one callback primitive, zero
total vertices. -/
theorem C9_callbacks_suppressed_witness :
    outEmptyFrame.prepared = [] ∧ EguiPainter.new.draw_calls = [] :=
  C9_callbacks_suppressed EguiPainter.new EguiPainter.new fCallbackC9
    (1, 1) outEmptyFrame ⟨⟨0, 0, 0, 0⟩, .callback 7⟩ 7 rfl
    (by simp [fCallbackC9]) rfl rfl

/-- Auxiliary: capacity facts of the geometry block. Capacities never
shrink; the vertex buffer is replaced (generation bump) exactly when
the required vertex count strictly exceeds the capacity; the index
buffer is replaced exactly when, in addition, the total vertex count
is nonzero (the short-circuit skips buffer management); replacements
are sized exactly to the requirement. -/
theorem geometryPhase_caps (pt : Painter) (scale : ℚ)
    (meshes : List ClippedPrimM) (w h : Nat) :
    (pt.vb_len ≤ (geometryPhase pt scale meshes w h).1.vb_len ∧
      pt.ib_len ≤ (geometryPhase pt scale meshes w h).1.ib_len) ∧
    ((geometryPhase pt scale meshes w h).1.vbGen ≠ pt.vbGen ↔
      pt.vb_len < (totalGeom meshes).1) ∧
    ((geometryPhase pt scale meshes w h).1.ibGen ≠ pt.ibGen ↔
      0 < (totalGeom meshes).1 ∧ pt.ib_len < (totalGeom meshes).2) ∧
    (pt.vb_len < (totalGeom meshes).1 →
      (geometryPhase pt scale meshes w h).1.vbSize = (totalGeom meshes).1 * 20 ∧
      (geometryPhase pt scale meshes w h).1.vb_len = (totalGeom meshes).1) ∧
    (0 < (totalGeom meshes).1 → pt.ib_len < (totalGeom meshes).2 →
      (geometryPhase pt scale meshes w h).1.ibSize = (totalGeom meshes).2 * 4 ∧
      (geometryPhase pt scale meshes w h).1.ib_len = (totalGeom meshes).2) := by
  by_cases h0 : (totalGeom meshes).1 = 0
  · simp [geometryPhase, h0]
  · by_cases hv : pt.vb_len < (totalGeom meshes).1 <;>
      by_cases hi : pt.ib_len < (totalGeom meshes).2 <;>
      simp [geometryPhase, h0, hv, hi] <;>
      omega

/-- Auxiliary: per-frame capacity facts at the upload level. -/
theorem upload_caps (p p' : Painter) (f : EguiGfxDataM) (sp : Nat × Nat)
    (out : FrameOut)
    (h : upload_egui_data p f sp = .ok (p', out)) :
    (p.vb_len ≤ p'.vb_len ∧ p.ib_len ≤ p'.ib_len) ∧
    (p'.vbGen ≠ p.vbGen ↔ p.vb_len < (totalGeom f.meshes).1) ∧
    (p'.ibGen ≠ p.ibGen ↔
      0 < (totalGeom f.meshes).1 ∧ p.ib_len < (totalGeom f.meshes).2) ∧
    (p.vb_len < (totalGeom f.meshes).1 →
      p'.vbSize = (totalGeom f.meshes).1 * 20 ∧
      p'.vb_len = (totalGeom f.meshes).1) ∧
    (0 < (totalGeom f.meshes).1 → p.ib_len < (totalGeom f.meshes).2 →
      p'.ibSize = (totalGeom f.meshes).2 * 4 ∧
      p'.ib_len = (totalGeom f.meshes).2) := by
  simp only [upload_egui_data] at h
  rcases htx :
      texturesPhase { p with draw_calls := ([] : List EguiDrawCallsM) } f
      with e | pr
  · rw [htx] at h; cases h
  · obtain ⟨pt, ws⟩ := pr
    rw [htx] at h
    injection h with h2
    injection h2 with h3 h4
    subst h3
    obtain ⟨t1, t2, t3, t4, t5, t6, -, -, -, -⟩ :=
      texturesPhase_fields _ _ _ _ htx
    have caps := geometryPhase_caps pt ((sp.1 : ℚ) / f.screen_logical_w)
      f.meshes sp.1 sp.2
    rw [t1, t2, t3, t4] at caps
    exact caps

/-- Auxiliary: buffer capacities are monotone over any frame sequence. -/
theorem runFrames_mono (p pe : Painter)
    (fs : List (EguiGfxDataM × Nat × Nat))
    (h : runFrames p fs = .ok pe) :
    p.vb_len ≤ pe.vb_len ∧ p.ib_len ≤ pe.ib_len := by
  induction fs generalizing p with
  | nil =>
    simp only [runFrames] at h
    injection h with h2
    subst h2
    exact ⟨le_refl _, le_refl _⟩
  | cons hd rest ih =>
    obtain ⟨f, w, hgt⟩ := hd
    simp only [runFrames] at h
    rcases hstep : upload_egui_data p f (w, hgt) with e | pr
    · rw [hstep] at h; cases h
    · obtain ⟨p1, o⟩ := pr
      rw [hstep] at h
      obtain ⟨hvb, hib⟩ := (upload_caps p p1 f (w, hgt) o hstep).1
      obtain ⟨hvb2, hib2⟩ := ih p1 h
      exact ⟨hvb.trans hvb2, hib.trans hib2⟩

/-- C5 (amended): across any frame sequence both capacities are
monotonically non-decreasing; per frame, the vertex buffer is replaced
if and only if the required vertex count strictly exceeds its
capacity, while the index buffer is replaced if and only if the total
vertex count is nonzero AND the required index count strictly exceeds
its capacity (the zero-vertex short-circuit skips buffer management);
every replacement is sized exactly requirement times 20 respectively
4 bytes and sets the capacity to exactly the requirement. -/
theorem C5_capacity_growth (p pe p1 : Painter)
    (fs : List (EguiGfxDataM × Nat × Nat)) (f : EguiGfxDataM)
    (sp : Nat × Nat) (out : FrameOut)
    (hrun : runFrames p fs = .ok pe)
    (hstep : upload_egui_data p f sp = .ok (p1, out)) :
    (p.vb_len ≤ pe.vb_len ∧ p.ib_len ≤ pe.ib_len) ∧
    (p1.vbGen ≠ p.vbGen ↔ p.vb_len < (totalGeom f.meshes).1) ∧
    (p1.ibGen ≠ p.ibGen ↔
      0 < (totalGeom f.meshes).1 ∧ p.ib_len < (totalGeom f.meshes).2) ∧
    (p.vb_len < (totalGeom f.meshes).1 →
      p1.vbSize = (totalGeom f.meshes).1 * 20 ∧
      p1.vb_len = (totalGeom f.meshes).1) ∧
    (0 < (totalGeom f.meshes).1 → p.ib_len < (totalGeom f.meshes).2 →
      p1.ibSize = (totalGeom f.meshes).2 * 4 ∧
      p1.ib_len = (totalGeom f.meshes).2) :=
  ⟨runFrames_mono p pe fs hrun,
    (upload_caps p p1 f sp out hstep).2.1,
    (upload_caps p p1 f sp out hstep).2.2.1,
    (upload_caps p p1 f sp out hstep).2.2.2.1,
    (upload_caps p p1 f sp out hstep).2.2.2.2⟩

/-- Witness for C5 at concrete inputs: the empty sequence and the
empty frame. -/
theorem C5_capacity_growth_witness :
    (EguiPainter.new.vb_len ≤ EguiPainter.new.vb_len ∧
      EguiPainter.new.ib_len ≤ EguiPainter.new.ib_len) ∧
    (EguiPainter.new.vbGen ≠ EguiPainter.new.vbGen ↔
      EguiPainter.new.vb_len < (totalGeom fEmptyFrame.meshes).1) ∧
    (EguiPainter.new.ibGen ≠ EguiPainter.new.ibGen ↔
      0 < (totalGeom fEmptyFrame.meshes).1 ∧
        EguiPainter.new.ib_len < (totalGeom fEmptyFrame.meshes).2) ∧
    (EguiPainter.new.vb_len < (totalGeom fEmptyFrame.meshes).1 →
      EguiPainter.new.vbSize = (totalGeom fEmptyFrame.meshes).1 * 20 ∧
      EguiPainter.new.vb_len = (totalGeom fEmptyFrame.meshes).1) ∧
    (0 < (totalGeom fEmptyFrame.meshes).1 →
      EguiPainter.new.ib_len < (totalGeom fEmptyFrame.meshes).2 →
      EguiPainter.new.ibSize = (totalGeom fEmptyFrame.meshes).2 * 4 ∧
      EguiPainter.new.ib_len = (totalGeom fEmptyFrame.meshes).2) :=
  C5_capacity_growth EguiPainter.new EguiPainter.new EguiPainter.new []
    fEmptyFrame (1, 1) outEmptyFrame rfl rfl

/-- A degenerate frame: one mesh with zero vertices but three indices,
so the total vertex count is zero while the required index count is
three. -/
def fDegenerateC5 : EguiGfxDataM :=
  { meshes := [⟨⟨0, 0, 1, 1⟩, .mesh [] [0, 1, 2] (.Managed 0)⟩]
    textures_set := [], textures_free := []
    screen_logical_w := 1, screen_logical_h := 1 }

/-- Counterexample to C5 as stated: on this frame the required index
count (three) strictly exceeds the index-buffer capacity (zero), yet
the index buffer is not replaced and its capacity and size do not
change, because the zero-vertex short-circuit returns before buffer
management. -/
theorem C5_index_buffer_cex :
    Except.map (fun r => (r.1.ibGen, r.1.ib_len, r.1.ibSize))
        (upload_egui_data EguiPainter.new fDegenerateC5 (1, 1)) =
      .ok (EguiPainter.new.ibGen, EguiPainter.new.ib_len,
        EguiPainter.new.ibSize) ∧
    EguiPainter.new.ib_len < (totalGeom fDegenerateC5.meshes).2 :=
  ⟨rfl, by decide⟩

/-- Auxiliary: the deletion loop leaves keys it was not asked to delete
untouched. -/
theorem removeIds_ok_notmem (m m' : Nat → Option EguiTextureM)
    (tids : List TextureIdM) (k : Nat)
    (h : removeIds m tids = .ok m')
    (hk : TextureIdM.Managed k ∉ tids) :
    m' k = m k := by
  induction tids generalizing m with
  | nil =>
    simp only [removeIds] at h
    injection h with h2
    subst h2
    rfl
  | cons t rest ih =>
    cases t with
    | Managed k2 =>
      simp only [removeIds] at h
      have hk2 : k ≠ k2 := by
        intro hEq
        exact hk (by simp [hEq])
      have hrest : TextureIdM.Managed k ∉ rest := fun hmem =>
        hk (List.mem_cons_of_mem _ hmem)
      have := ih _ h hrest
      simpa [hk2] using this
    | User u => simp only [removeIds] at h; cases h

/-- Auxiliary: the deletion loop removes every Managed key it drains. -/
theorem removeIds_ok_mem (m m' : Nat → Option EguiTextureM)
    (tids : List TextureIdM) (k : Nat)
    (h : removeIds m tids = .ok m')
    (hk : TextureIdM.Managed k ∈ tids) :
    m' k = none := by
  induction tids generalizing m with
  | nil => cases hk
  | cons t rest ih =>
    cases t with
    | Managed k2 =>
      simp only [removeIds] at h
      by_cases hr : TextureIdM.Managed k ∈ rest
      · exact ih _ h hr
      · have hk2 : k = k2 := by
          rcases List.mem_cons.mp hk with h1 | h1
          · cases h1; rfl
          · exact absurd h1 hr
        have := removeIds_ok_notmem _ _ _ _ h hr
        simpa [hk2] using this
    | User u => simp only [removeIds] at h; cases h

/-- Auxiliary: a successful set_textures pass never removes a managed
entry: presence is monotone. -/
theorem setTextures_managed_mono (p p' : Painter)
    (ds : List (TextureIdM × ImageDeltaM)) (ws : List TexWrite) (k : Nat)
    (h : setTextures p ds = .ok (p', ws))
    (hk : (p.managed_textures k).isSome = true) :
    (p'.managed_textures k).isSome = true := by
  induction ds generalizing p ws with
  | nil =>
    simp only [setTextures] at h
    injection h with h2
    injection h2 with h3 h4
    subst h3
    exact hk
  | cons hd rest ih =>
    obtain ⟨tid, delta⟩ := hd
    cases tid with
    | User u => simp [setTextures] at h
    | Managed k2 =>
      cases hpos : delta.pos with
      | some q =>
        simp only [setTextures, hpos] at h
        exact ih _ _ h hk
      | none =>
        simp only [setTextures, hpos] at h
        split at h
        · cases h
        · split at h
          · cases h
          · rcases hrec :
                setTextures (managedFullCreate p k2 delta).1 rest with e | pr
            · rw [hrec] at h; cases h
            · obtain ⟨pf, ws'⟩ := pr
              rw [hrec] at h
              injection h with h2
              injection h2 with h3 h4
              subst h3
              refine ih _ _ hrec ?_
              by_cases hkk : k = k2
              · simp [managedFullCreate, hkk]
              · simpa [managedFullCreate, hkk] using hk

/-- Auxiliary: a successful set_textures pass leaves a key unchanged
when the delta list holds no full creation (no position none) for it. -/
theorem setTextures_managed_nocreate (p p' : Painter)
    (ds : List (TextureIdM × ImageDeltaM)) (ws : List TexWrite) (k : Nat)
    (h : setTextures p ds = .ok (p', ws))
    (hnc : ∀ d, (TextureIdM.Managed k, d) ∈ ds → d.pos ≠ none) :
    p'.managed_textures k = p.managed_textures k := by
  induction ds generalizing p ws with
  | nil =>
    simp only [setTextures] at h
    injection h with h2
    injection h2 with h3 h4
    subst h3
    rfl
  | cons hd rest ih =>
    obtain ⟨tid, delta⟩ := hd
    have hncRest : ∀ d, (TextureIdM.Managed k, d) ∈ rest → d.pos ≠ none :=
      fun d hd2 => hnc d (List.mem_cons_of_mem _ hd2)
    cases tid with
    | User u => simp [setTextures] at h
    | Managed k2 =>
      cases hpos : delta.pos with
      | some q =>
        simp only [setTextures, hpos] at h
        exact ih _ _ h hncRest
      | none =>
        simp only [setTextures, hpos] at h
        split at h
        · cases h
        · split at h
          · cases h
          · rcases hrec :
                setTextures (managedFullCreate p k2 delta).1 rest with e | pr
            · rw [hrec] at h; cases h
            · obtain ⟨pf, ws'⟩ := pr
              rw [hrec] at h
              injection h with h2
              injection h2 with h3 h4
              subst h3
              have hkk : k ≠ k2 := by
                intro hEq
                exact hnc delta (by simp [hEq]) hpos
              have := ih _ _ hrec hncRest
              rw [this]
              simp [managedFullCreate, hkk]

/-- Auxiliary: the geometry block never touches the texture tables or
the pending free list. -/
theorem geometryPhase_tex_fields (pt : Painter) (scale : ℚ)
    (meshes : List ClippedPrimM) (w h : Nat) :
    (geometryPhase pt scale meshes w h).1.managed_textures =
      pt.managed_textures ∧
    (geometryPhase pt scale meshes w h).1.delete_textures =
      pt.delete_textures := by
  by_cases h0 : (totalGeom meshes).1 = 0
  · simp [geometryPhase, h0]
  · by_cases hv : pt.vb_len < (totalGeom meshes).1 <;>
      by_cases hi : pt.ib_len < (totalGeom meshes).2 <;>
      simp [geometryPhase, h0, hv, hi]

/-- C2: deferred texture deletion. If a managed id present in the cache
(and not pending from the previous frame) is named in frame N's free
list, then after frame N it is still cached and the free list is
recorded as pending; at frame N plus one it is removed already by the
delete-and-record phase, which runs strictly before that frame's
creations, and (when frame N plus one does not recreate it) it is
absent from the cache at the end of that frame. -/
theorem C2_deferred_deletion (p p1 p2 : Painter) (f1 f2 : EguiGfxDataM)
    (sp1 sp2 : Nat × Nat) (o1 o2 : FrameOut) (id : Nat)
    (hpend : TextureIdM.Managed id ∉ p.delete_textures)
    (hsome : (p.managed_textures id).isSome = true)
    (hfree : TextureIdM.Managed id ∈ f1.textures_free)
    (h1 : upload_egui_data p f1 sp1 = .ok (p1, o1))
    (h2 : upload_egui_data p1 f2 sp2 = .ok (p2, o2))
    (hnorecreate :
      ∀ d2, (TextureIdM.Managed id, d2) ∈ f2.textures_set → d2.pos ≠ none) :
    (p1.managed_textures id).isSome = true ∧
    p1.delete_textures = f1.textures_free ∧
    Except.map (fun q => q.managed_textures id)
        (deleteRecordPhase p1 f2.textures_free) = .ok none ∧
    p2.managed_textures id = none := by
  -- frame N
  simp only [upload_egui_data] at h1
  rcases htx1 :
      texturesPhase { p with draw_calls := ([] : List EguiDrawCallsM) } f1
      with e | pr
  · rw [htx1] at h1; cases h1
  obtain ⟨pt1, ws1⟩ := pr
  rw [htx1] at h1
  injection h1 with h1b
  injection h1b with h1c h1d
  obtain ⟨hg1m, hg1d⟩ :=
    geometryPhase_tex_fields pt1 ((sp1.1 : ℚ) / f1.screen_logical_w)
      f1.meshes sp1.1 sp1.2
  have hp1m : p1.managed_textures = pt1.managed_textures := by
    rw [← h1c]; exact hg1m
  have hp1d : p1.delete_textures = pt1.delete_textures := by
    rw [← h1c]; exact hg1d
  -- split frame N's texture phase
  rw [texturesPhase] at htx1
  rcases hdel1 :
      deleteRecordPhase { p with draw_calls := ([] : List EguiDrawCallsM) }
        f1.textures_free with e | q1
  · rw [hdel1] at htx1; cases htx1
  rw [hdel1] at htx1
  simp only [deleteRecordPhase] at hdel1
  rcases hrem1 :
      removeIds p.managed_textures p.delete_textures with e | m1
  · rw [hrem1] at hdel1; cases hdel1
  rw [hrem1] at hdel1
  injection hdel1 with hq1
  have hm1 : m1 id = p.managed_textures id :=
    removeIds_ok_notmem _ _ _ _ hrem1 hpend
  have hq1m : q1.managed_textures id = p.managed_textures id := by
    rw [← hq1]; exact hm1
  have hq1some : (q1.managed_textures id).isSome = true := by
    rw [hq1m]; exact hsome
  have hpt1some : (pt1.managed_textures id).isSome = true :=
    setTextures_managed_mono _ _ _ _ _ htx1 hq1some
  obtain ⟨-, -, -, -, -, -, s7, -, -, -⟩ :=
    setTextures_ok_fields _ _ _ _ htx1
  have hq1d : q1.delete_textures = f1.textures_free := by rw [← hq1]
  have hp1free : p1.delete_textures = f1.textures_free := by
    rw [hp1d, s7, hq1d]
  -- frame N plus one
  simp only [upload_egui_data] at h2
  rcases htx2 :
      texturesPhase { p1 with draw_calls := ([] : List EguiDrawCallsM) } f2
      with e | pr2
  · rw [htx2] at h2; cases h2
  obtain ⟨pt2, ws2⟩ := pr2
  rw [htx2] at h2
  injection h2 with h2b
  injection h2b with h2c h2d
  rw [texturesPhase] at htx2
  rcases hdel2 :
      deleteRecordPhase { p1 with draw_calls := ([] : List EguiDrawCallsM) }
        f2.textures_free with e | q2
  · rw [hdel2] at htx2; cases htx2
  rw [hdel2] at htx2
  simp only [deleteRecordPhase] at hdel2
  rcases hrem2 :
      removeIds p1.managed_textures p1.delete_textures with e | m2
  · rw [hrem2] at hdel2; cases hdel2
  rw [hrem2] at hdel2
  injection hdel2 with hq2
  have hmem2 : TextureIdM.Managed id ∈ p1.delete_textures := by
    rw [hp1free]; exact hfree
  have hm2 : m2 id = none := removeIds_ok_mem _ _ _ _ hrem2 hmem2
  have hq2m : q2.managed_textures id = none := by rw [← hq2]; exact hm2
  have hdelmap :
      Except.map (fun q => q.managed_textures id)
        (deleteRecordPhase p1 f2.textures_free) = .ok none := by
    simp only [deleteRecordPhase]
    rw [hrem2]
    simp only [Except.map]
    simp [hm2]
  have hend : p2.managed_textures id = none := by
    rw [← h2c]
    obtain ⟨hg2m, -⟩ :=
      geometryPhase_tex_fields pt2 ((sp2.1 : ℚ) / f2.screen_logical_w)
        f2.meshes sp2.1 sp2.2
    rw [hg2m]
    rw [setTextures_managed_nocreate _ _ _ _ _ htx2 hnorecreate]
    exact hq2m
  exact ⟨by rw [hp1m]; exact hpt1some, hp1free, hdelmap, hend⟩

/-- A managed texture entry used in the C2 witness cache. -/
def texEntryC2 : EguiTextureM :=
  { texture := some 10, view := some 11
    bindgroup := { samplerRef := .linearShared, viewRef := 11 } }

/-- Painter holding texture id 5 before frame one of the C2 witness. -/
def pStartC2 : Painter :=
  { EguiPainter.new with
      managed_textures := fun k => if k = 5 then some texEntryC2 else none }

/-- Frame one of the C2 witness: frees texture id 5, nothing else. -/
def fFree5C2 : EguiGfxDataM :=
  { meshes := [], textures_set := []
    textures_free := [TextureIdM.Managed 5]
    screen_logical_w := 1, screen_logical_h := 1 }

/-- Painter after frame one of the C2 witness: id 5 still cached, its
free recorded as pending. -/
def pMidC2 : Painter :=
  { pStartC2 with delete_textures := [TextureIdM.Managed 5] }

/-- Painter after frame two of the C2 witness: id 5 deleted. -/
def pEndC2 : Painter :=
  { pStartC2 with
      managed_textures :=
        fun x => if x = 5 then none else pStartC2.managed_textures x
      delete_textures := [] }

/-- Witness for C2 at concrete inputs: texture 5 freed in frame one
survives frame one and is gone by the delete phase of frame two. -/
theorem C2_deferred_deletion_witness :
    (pMidC2.managed_textures 5).isSome = true ∧
    pMidC2.delete_textures = fFree5C2.textures_free ∧
    Except.map (fun q => q.managed_textures 5)
        (deleteRecordPhase pMidC2 fEmptyFrame.textures_free) = .ok none ∧
    pEndC2.managed_textures 5 = none :=
  C2_deferred_deletion pStartC2 pMidC2 pEndC2 fFree5C2 fEmptyFrame (1, 1)
    (1, 1) outEmptyFrame outEmptyFrame 5
    (by simp [pStartC2, EguiPainter.new]) rfl (by simp [fFree5C2]) rfl rfl
    (by simp [fEmptyFrame])

/-- Auxiliary: an emitted scissor rectangle is inside the target and at
least one pixel in each dimension. -/
theorem computeScissor_some_ok (scale : ℚ) (r : RectQ) (w h : Nat)
    (sc : Scissor)
    (hs : computeScissor scale r w h = some sc) :
    sc.x + sc.w ≤ w ∧ sc.y + sc.h ≤ h ∧ 1 ≤ sc.w ∧ 1 ≤ sc.h := by
  simp only [computeScissor] at hs
  split at hs
  · cases hs
  · rename_i hcond
    rcases not_or.mp hcond with ⟨hcw, hch⟩
    injection hs with h2
    subst h2
    try dsimp only
    try dsimp only at hcw hch
    omega

/-- Auxiliary: draw calls accumulated by the compilation loop all carry
in-bounds scissors, provided the starting state's do. -/
theorem compileFold_scissors (scale : ℚ) (w h : Nat)
    (prims : List ClippedPrimM) (st : CompileSt)
    (hst : ∀ dc ∈ st.draw_calls,
      dc.scissor.x + dc.scissor.w ≤ w ∧ dc.scissor.y + dc.scissor.h ≤ h ∧
      1 ≤ dc.scissor.w ∧ 1 ≤ dc.scissor.h) :
    ∀ dc ∈ (prims.foldl (compileStep scale w h) st).draw_calls,
      dc.scissor.x + dc.scissor.w ≤ w ∧ dc.scissor.y + dc.scissor.h ≤ h ∧
      1 ≤ dc.scissor.w ∧ 1 ≤ dc.scissor.h := by
  induction prims generalizing st with
  | nil => exact hst
  | cons cp rest ih =>
    refine ih _ ?_
    intro dc hdc
    rcases hsc : computeScissor scale cp.clip_rect w h with _ | sc
    · have hskip : compileStep scale w h st cp = st := by
        unfold compileStep
        rw [hsc]
      rw [hskip] at hdc
      exact hst _ hdc
    · have hok := computeScissor_some_ok scale cp.clip_rect w h sc hsc
      unfold compileStep at hdc
      rw [hsc] at hdc
      cases hp : cp.primitive with
      | mesh vs is tid =>
        rw [hp] at hdc
        dsimp only at hdc
        rcases List.mem_append.mp hdc with hdc | hdc
        · exact hst _ hdc
        · rcases List.mem_singleton.mp hdc with rfl
          simpa [EguiDrawCallsM.scissor] using hok
      | callback cb =>
        rw [hp] at hdc
        dsimp only at hdc
        rcases List.mem_append.mp hdc with hdc | hdc
        · exact hst _ hdc
        · rcases List.mem_singleton.mp hdc with rfl
          simpa [EguiDrawCallsM.scissor] using hok

/-- C3: a primitive whose computed physical clip rectangle has zero
clip width or height is skipped entirely (the loop state, and with it
the draw-call list and the written geometry, is unchanged); and every
draw call the compilation loop emits carries a scissor rectangle
within the screen bounds on both axes with width and height at least
one. -/
theorem C3_degenerate_clip_elision_and_bounds (scale : ℚ) (w h : Nat)
    (st : CompileSt) (cp : ClippedPrimM) (prims : List ClippedPrimM)
    (dc : EguiDrawCallsM)
    (h1 : computeScissor scale cp.clip_rect w h = none)
    (h2 : dc ∈ (compileLoop scale w h prims).draw_calls) :
    compileStep scale w h st cp = st ∧
    dc.scissor.x + dc.scissor.w ≤ w ∧ dc.scissor.y + dc.scissor.h ≤ h ∧
    1 ≤ dc.scissor.w ∧ 1 ≤ dc.scissor.h := by
  have hfits :=
    compileFold_scissors scale w h prims CompileSt.start
      (by intro dc2 hdc2; simp [CompileSt.start] at hdc2) dc h2
  refine ⟨?_, hfits⟩
  unfold compileStep
  rw [h1]

/-- The C3 witness primitive whose clip rectangle lies right of the
screen: its physical clip width is zero. -/
def cpNoneC3 : ClippedPrimM := ⟨⟨200, 200, 300, 300⟩, .callback 0⟩

/-- The C3 witness frame primitives: one mesh fully on screen. -/
def primsC3 : List ClippedPrimM :=
  [⟨⟨0, 0, 50, 50⟩, .mesh [1, 2, 3] [0, 1, 2] (.Managed 0)⟩]

/-- The draw call the C3 witness loop emits. -/
def dcC3 : EguiDrawCallsM := .mesh ⟨0, 0, 50, 50⟩ (.Managed 0) 0 0 3

/-- Witness for C3 at concrete inputs. -/
theorem C3_degenerate_clip_elision_and_bounds_witness :
    compileStep 1 100 100 CompileSt.start cpNoneC3 = CompileSt.start ∧
    dcC3.scissor.x + dcC3.scissor.w ≤ 100 ∧
    dcC3.scissor.y + dcC3.scissor.h ≤ 100 ∧
    1 ≤ dcC3.scissor.w ∧ 1 ≤ dcC3.scissor.h :=
  C3_degenerate_clip_elision_and_bounds 1 100 100 CompileSt.start cpNoneC3
    primsC3 dcC3
    (by
      show computeScissor 1 ⟨200, 200, 300, 300⟩ 100 100 = none
      unfold computeScissor clampQ roundNat
      norm_num [min_def, max_def, round_eq]
      try decide)
    (by
      have hs : computeScissor 1 ⟨0, 0, 50, 50⟩ 100 100 =
          some ⟨0, 0, 50, 50⟩ := by
        unfold computeScissor clampQ roundNat
        norm_num [min_def, max_def, round_eq]
        try decide
      unfold compileLoop primsC3
      simp only [List.foldl]
      unfold compileStep
      dsimp only
      rw [hs]
      decide)
